import Mathlib

/-!
Shallow embedding of the `explode-env` string interpolator.

The repository has two variants of the scanner:
* `src/index.ts` — `explode(str, mapping, options)` (the options variant), with
  helpers `getTemplateKey`, `isAlphaNumeric`, `isShellSpecialVar`;
* the simple variant (no options, no default-value syntax) — `explode(str, mapping)`
  with identical helpers.

Templates are embedded as `List Char` (JS strings indexed by code unit; all the
characters the scanner inspects are ASCII, so `Char` per code unit is exact).
The JS object `Record<string, string | undefined>` is embedded as an association
list whose stored value is `Option (List Char)`: `none` models a key that is
present with the value `undefined`.  `m[k]` (which is `undefined` both when the
key is absent and when it is stored as `undefined`) is `(lookupEntry m k).join`,
and `realKey in m` is `(lookupEntry m k).isSome`.

The `for (let j = 0; ...)` loop is embedded as a fuel-indexed tail recursion;
`j` strictly increases every iteration, so fuel `str.length` always suffices
(proved as a fuel-irrelevance theorem below).
-/

namespace ExplodeEnv

/-- Options record of `src/index.ts` (`ignoreUnsetVars`, `ignoreDefaultExpansion`;
both default to `false`, and are only ever used in boolean tests, so the
optional `boolean | undefined` fields are embedded as `Bool`). -/
structure Options where
  ignoreUnsetVars : Bool
  ignoreDefaultExpansion : Bool
deriving DecidableEq, Repr

/-- `DEFAULT_OPTIONS` of `src/index.ts`. -/
def DEFAULT_OPTIONS : Options := ⟨false, false⟩

/-- A JS object `Record<string, string | undefined>`: keys are unique in a JS
object; lookup finds the first matching entry. A stored `none` models a key
present with value `undefined`. -/
abbrev Mapping := List (List Char × Option (List Char))

/-- Property lookup: `some v` iff the key is present (then `v` is the stored
value, possibly `undefined`). -/
def lookupEntry : Mapping → List Char → Option (Option (List Char))
  | [], _ => none
  | (k, v) :: rest, key => if k = key then some v else lookupEntry rest key

/-- JS `realKey in m` (property-existence test). -/
def hasKey (m : Mapping) (k : List Char) : Bool :=
  (lookupEntry m k).isSome

/-- JS member access `m[k]`: `undefined` (`none`) when the key is absent or
stored as `undefined`. -/
def jsIndex (m : Mapping) (k : List Char) : Option (List Char) :=
  (lookupEntry m k).join

/-- JS property assignment `m[k] = v` (overwrite if present, else add). -/
def setKey : Mapping → List Char → List Char → Mapping
  | [], key, v => [(key, some v)]
  | (k, w) :: rest, key, v =>
    if k = key then (k, some v) :: rest else (k, w) :: setKey rest key v

/-- `const m = { ...mapping }` — the spread copy taken at the top of `explode`;
a JS object copy has the same entries. -/
def copyMapping (m : Mapping) : Mapping := m

/-- `isAlphaNumeric` of `src/index.ts`: underscore, ASCII letter or digit
(JS single-character `<=`/`>=` comparisons are code-unit comparisons). -/
def isAlphaNumeric (c : Char) : Bool :=
  c = '_' || ('a' ≤ c && c ≤ 'z') || ('A' ≤ c && c ≤ 'Z') || ('0' ≤ c && c ≤ '9')

/-- `isShellSpecialVar` of `src/index.ts`. -/
def isShellSpecialVar (c : Char) : Bool :=
  ['*', '#', '$', '@', '!', '?', '-',
   '0', '1', '2', '3', '4', '5', '6', '7', '8', '9'].contains c

/-- JS `str.indexOf(c)`, as an `Option Nat` (`none` for `-1`). -/
def jsIndexOf : List Char → Char → Option Nat
  | [], _ => none
  | c :: rest, t => if c = t then some 0 else (jsIndexOf rest t).map (· + 1)

/-- JS `str.slice(a, b)` for `0 ≤ a`, `0 ≤ b` (clamping at the end is implicit
in `take`/`drop`). -/
def jsSlice (l : List Char) (a b : Nat) : List Char :=
  (l.drop a).take (b - a)

/-- Length of the maximal `isAlphaNumeric` run at the front — the
`while (i < str.length && isAlphaNumeric(str[i])) i++;` loop of
`getTemplateKey`. -/
def alnumLen : List Char → Nat
  | [] => 0
  | c :: rest => if isAlphaNumeric c then alnumLen rest + 1 else 0

/-- `getTemplateKey` of `src/index.ts` (operating on the substring just after
`$`): returns the parsed key and the consumed length.  `str[0]` on the empty
string is `undefined` in JS, which is neither `{` nor a shell special
character, so the `headD ' '` default (a character in neither class) is
exact. -/
def getTemplateKey (s : List Char) : List Char × Nat :=
  if s.headD ' ' = '{' then
    -- the source tests `end === 1`, then `end === -1`; the two tests are
    -- disjoint, so testing `none` (that is, -1) first is the same function
    match jsIndexOf s '}' with
    | none => ([], s.length)       -- invalid template `${key` (unterminated)
    | some e =>
      if e = 1 then ([], 2)        -- invalid template `${}`
      else (jsSlice s 1 e, e + 1)
  else if isShellSpecialVar (s.headD ' ') then
    ([], 0)
  else
    (s.take (alnumLen s), alnumLen s)

/-- JS `key.split` on the regular expression alternation of `:=` and `:-`:
split on every occurrence of either operator, scanning left to right. -/
def jsSplitOps : List Char → List (List Char)
  | [] => [[]]
  | [c] => [[c]]
  | c1 :: c2 :: rest =>
    if c1 = ':' ∧ (c2 = '=' ∨ c2 = '-') then
      [] :: jsSplitOps rest
    else
      match jsSplitOps (c2 :: rest) with
      | [] => [[c1]]
      | h :: t => (c1 :: h) :: t

/-- Array destructuring `const [realKey, defaultValue]` of the split result:
the first element and (optionally) the second. -/
def splitKey (key : List Char) : List Char × Option (List Char) :=
  ((jsSplitOps key).headD [], (jsSplitOps key).get? 1)

/-- Statement helper (not from the source): the string contains an occurrence
of `:=` or `:-` — the condition under which the split finds an operator.
Used only in theorem hypotheses to say a segment is operator-free. -/
def hasOp : List Char → Bool
  | [] => false
  | [_] => false
  | c1 :: c2 :: rest =>
    if c1 = ':' ∧ (c2 = '=' ∨ c2 = '-') then true else hasOp (c2 :: rest)

/-- JS `key.includes(":=")`. -/
def hasColonEq : List Char → Bool
  | [] => false
  | [_] => false
  | c1 :: c2 :: rest => if c1 = ':' ∧ c2 = '=' then true else hasColonEq (c2 :: rest)

/-- Truthiness of `defaultValue` (and of `defaultValue?.length`): `undefined`
and the empty string are falsy, a non-empty string (positive length) is
truthy. -/
def dvTruthy : Option (List Char) → Bool
  | some (_ :: _) => true
  | _ => false

/-- JS string concatenation `buffer += v` for `v : string | undefined`:
`undefined` is coerced to the text `"undefined"`. -/
def jsConcatVal : Option (List Char) → List Char
  | some s => s
  | none => ['u', 'n', 'd', 'e', 'f', 'i', 'n', 'e', 'd']

/-- What the options variant appends for a successfully parsed key (`key ≠ ""`):
the branch cascade of `src/index.ts` lines 69–79.  `lit` is the literal slice
`str.slice(j, j + length + 1)`. -/
def emitO (o : Options) (m : Mapping) (lit key : List Char) : List Char :=
  if hasKey m (splitKey key).1 then
    jsConcatVal (jsIndex m (splitKey key).1)
  else if dvTruthy (splitKey key).2 && !o.ignoreDefaultExpansion then
    ((splitKey key).2).getD []
  else if o.ignoreUnsetVars then
    lit
  else
    []

/-- The mapping update of `src/index.ts` lines 81–89: insert
`realKey -> defaultValue` when default expansion is on, the key is absent,
the default is non-empty, and the key contains `:=` (`key.includes(":=")`). -/
def updateO (o : Options) (m : Mapping) (key : List Char) : Mapping :=
  if !o.ignoreDefaultExpansion && !hasKey m (splitKey key).1
      && dvTruthy (splitKey key).2 && hasColonEq key then
    setKey m (splitKey key).1 (((splitKey key).2).getD [])
  else m

/-- What the simple variant appends for a successfully parsed key:
`mapping[key] ?? ""`. -/
def jsIndexOrEmpty (m : Mapping) (k : List Char) : List Char :=
  (jsIndex m k).getD []

/-- The scan loop of the options variant `explode` (`src/index.ts`): state is
(working mapping `m`, output `buffer`, write cursor `i`, scan cursor `j`);
returns the final buffer together with the final working mapping.  Fuel bounds
the iteration count; `j` strictly increases each step, so `str.length` fuel is
always enough (see `explodeLoopO_fuel_add`). -/
def explodeLoopO (str : List Char) (o : Options) :
    Nat → Mapping → List Char → Nat → Nat → List Char × Mapping
  | 0, m, buffer, i, _ => (buffer ++ str.drop i, m)
  | fuel + 1, m, buffer, i, j =>
    if j < str.length then
      if str.getD j ' ' = '$' then
        if (getTemplateKey (str.drop (j + 1))).1 = [] then
          explodeLoopO str o fuel m
            ((buffer ++ jsSlice str i j)
              ++ jsSlice str j (j + (getTemplateKey (str.drop (j + 1))).2 + 1))
            (j + (getTemplateKey (str.drop (j + 1))).2 + 1)
            (j + (getTemplateKey (str.drop (j + 1))).2 + 1)
        else
          explodeLoopO str o fuel
            (updateO o m (getTemplateKey (str.drop (j + 1))).1)
            ((buffer ++ jsSlice str i j)
              ++ emitO o m (jsSlice str j (j + (getTemplateKey (str.drop (j + 1))).2 + 1))
                  (getTemplateKey (str.drop (j + 1))).1)
            (j + (getTemplateKey (str.drop (j + 1))).2 + 1)
            (j + (getTemplateKey (str.drop (j + 1))).2 + 1)
      else
        explodeLoopO str o fuel m buffer i (j + 1)
    else (buffer ++ str.drop i, m)

/-- The scan loop of the simple variant `explode` (no options file): identical
scanning, but a parsed key is resolved by `mapping[key] ?? ""` with the key
used as-is, and there is no mapping update. -/
def explodeLoopS (str : List Char) :
    Nat → Mapping → List Char → Nat → Nat → List Char
  | 0, _, buffer, i, _ => buffer ++ str.drop i
  | fuel + 1, m, buffer, i, j =>
    if j < str.length then
      if str.getD j ' ' = '$' then
        if (getTemplateKey (str.drop (j + 1))).1 = [] then
          explodeLoopS str fuel m
            ((buffer ++ jsSlice str i j)
              ++ jsSlice str j (j + (getTemplateKey (str.drop (j + 1))).2 + 1))
            (j + (getTemplateKey (str.drop (j + 1))).2 + 1)
            (j + (getTemplateKey (str.drop (j + 1))).2 + 1)
        else
          explodeLoopS str fuel m
            ((buffer ++ jsSlice str i j) ++ jsIndexOrEmpty m (getTemplateKey (str.drop (j + 1))).1)
            (j + (getTemplateKey (str.drop (j + 1))).2 + 1)
            (j + (getTemplateKey (str.drop (j + 1))).2 + 1)
      else
        explodeLoopS str fuel m buffer i (j + 1)
    else buffer ++ str.drop i

/-- Run the options-variant scan from the start, with sufficient fuel. -/
def explodeRunO (s : List Char) (m : Mapping) (o : Options) : List Char × Mapping :=
  explodeLoopO s o s.length m [] 0 0

/-- Run the simple-variant scan from the start, with sufficient fuel. -/
def explodeRunS (s : List Char) (m : Mapping) : List Char :=
  explodeLoopS s s.length m [] 0 0

/-- `explode(str, mapping, options)` of `src/index.ts` (the options variant):
copy the mapping, scan, return the buffer. -/
def explode (s : String) (mapping : Mapping) (o : Options) : String :=
  ⟨(explodeRunO s.data (copyMapping mapping) o).1⟩

/-- `explode(str, mapping)` — the simple (no-options) variant. -/
def explodeSimple (s : String) (mapping : Mapping) : String :=
  ⟨explodeRunS s.data mapping⟩

/-- One call of the options variant viewed with its caller: the result string,
paired with the caller's mapping after the call.  The source copies the
mapping (`const m = { ...mapping }`) and every write targets the copy `m`,
never `mapping`, so the caller's mapping after the call is the argument
itself. -/
def explodeCall (s : String) (mapping : Mapping) (o : Options) : String × Mapping :=
  (⟨(explodeRunO s.data (copyMapping mapping) o).1⟩, mapping)

example : explode "Hello, $name!" [("name".data, some "World".data)] DEFAULT_OPTIONS
    = "Hello, World!" := by decide
example : explode "Hello, ${name}!" [("name".data, some "World".data)] DEFAULT_OPTIONS
    = "Hello, World!" := by decide
example : explode "Hello, ${name:=World}!" [] DEFAULT_OPTIONS = "Hello, World!" := by decide
example : explode "Hello, ${name:=World}! ${name}" [] DEFAULT_OPTIONS
    = "Hello, World! World" := by decide
example : explode "Hello, ${name:=World}!" [] ⟨false, true⟩ = "Hello, !" := by decide
example : explode "Hello, $name! or $USER" [("USER".data, some "you".data)] ⟨true, false⟩
    = "Hello, $name! or you" := by decide
example : explode "$1" [] DEFAULT_OPTIONS = "$1" := by decide
example : explode "${}" [] DEFAULT_OPTIONS = "${}" := by decide
example : explode "$\x7bkey" [] DEFAULT_OPTIONS = "$\x7bkey" := by decide
example : explode "$" [] DEFAULT_OPTIONS = "$" := by decide
example : explodeSimple "Hello, $name!" [] = "Hello, !" := by decide
example : explode "${name}" [("name".data, none)] DEFAULT_OPTIONS = "undefined" := by decide
example : explode "${a:-b:=c}" [] DEFAULT_OPTIONS = "b" := by decide
example : explode "${a:-b:=c}$a" [] DEFAULT_OPTIONS = "bb" := by decide
example : explode "$$name" [("name".data, some "v".data)] DEFAULT_OPTIONS = "$v" := by decide

/-! ### List index helpers -/

lemma getD_append_add (a s : List Char) (n : Nat) (d : Char) :
    (a ++ s).getD (a.length + n) d = s.getD n d := by
  induction a with
  | nil => simp
  | cons c a ih =>
    have h1 : (c :: a).length + n = (a.length + n) + 1 := by
      rw [List.length_cons]; omega
    rw [List.cons_append, h1, List.getD_cons_succ, ih]

lemma drop_append_add (a s : List Char) (n : Nat) :
    (a ++ s).drop (a.length + n) = s.drop n := by
  induction a with
  | nil => simp
  | cons c a ih =>
    have h1 : (c :: a).length + n = (a.length + n) + 1 := by
      rw [List.length_cons]; omega
    rw [List.cons_append, h1, List.drop_succ_cons, ih]

lemma take_append_len (a s : List Char) :
    (a ++ s).take a.length = a := by
  induction a with
  | nil => rfl
  | cons c a ih =>
    rw [List.cons_append, List.length_cons, List.take_succ_cons, ih]

lemma getD_append_lt (a s : List Char) (n : Nat) (d : Char) (h : n < a.length) :
    (a ++ s).getD n d = a.getD n d := by
  induction a generalizing n with
  | nil => simp at h
  | cons c a ih =>
    cases n with
    | zero => rfl
    | succ n =>
      have := ih (n := n) (by simpa using Nat.lt_of_succ_lt_succ h)
      simpa using this

lemma getD_mem (l : List Char) (n : Nat) (d : Char) (h : n < l.length) :
    l.getD n d ∈ l := by
  induction l generalizing n with
  | nil => simp at h
  | cons c l ih =>
    cases n with
    | zero => simp [List.getD]
    | succ n =>
      have := ih (n := n) (by simpa using Nat.lt_of_succ_lt_succ h)
      simp only [List.getD_cons_succ]
      exact List.mem_cons_of_mem _ this

/-! ### Fuel irrelevance: the scan needs at most `str.length - j` iterations -/

lemma explodeLoopO_fuel_succ (str : List Char) (o : Options) :
    ∀ (fuel : Nat) (m : Mapping) (b : List Char) (i j : Nat),
      str.length ≤ fuel + j →
      explodeLoopO str o (fuel + 1) m b i j = explodeLoopO str o fuel m b i j := by
  intro fuel
  induction fuel with
  | zero =>
    intro m b i j h
    have hj : ¬ j < str.length := by omega
    simp [explodeLoopO, hj]
  | succ fuel ih =>
    intro m b i j h
    by_cases hj : j < str.length
    · by_cases hd : str.getD j ' ' = '$'
      · by_cases hk : (getTemplateKey (str.drop (j + 1))).1 = []
        · simp only [explodeLoopO, hj, if_true, hd, hk]
          exact ih _ _ _ _ (by omega)
        · simp only [explodeLoopO, hj, if_true, hd, if_neg hk, if_true]
          exact ih _ _ _ _ (by omega)
      · simp only [explodeLoopO, hj, if_true, if_neg hd]
        exact ih _ _ _ _ (by omega)
    · simp [explodeLoopO, hj]

lemma explodeLoopO_fuel_add (str : List Char) (o : Options)
    (k fuel : Nat) (m : Mapping) (b : List Char) (i j : Nat)
    (h : str.length ≤ fuel + j) :
    explodeLoopO str o (fuel + k) m b i j = explodeLoopO str o fuel m b i j := by
  induction k with
  | zero => rfl
  | succ k ih =>
    have : fuel + (k + 1) = (fuel + k) + 1 := by omega
    rw [this, explodeLoopO_fuel_succ str o (fuel + k) m b i j (by omega), ih]

lemma explodeLoopS_fuel_succ (str : List Char) :
    ∀ (fuel : Nat) (m : Mapping) (b : List Char) (i j : Nat),
      str.length ≤ fuel + j →
      explodeLoopS str (fuel + 1) m b i j = explodeLoopS str fuel m b i j := by
  intro fuel
  induction fuel with
  | zero =>
    intro m b i j h
    have hj : ¬ j < str.length := by omega
    simp [explodeLoopS, hj]
  | succ fuel ih =>
    intro m b i j h
    by_cases hj : j < str.length
    · by_cases hd : str.getD j ' ' = '$'
      · by_cases hk : (getTemplateKey (str.drop (j + 1))).1 = []
        · simp only [explodeLoopS, hj, if_true, hd, hk]
          exact ih _ _ _ _ (by omega)
        · simp only [explodeLoopS, hj, if_true, hd, if_neg hk, if_true]
          exact ih _ _ _ _ (by omega)
      · simp only [explodeLoopS, hj, if_true, if_neg hd]
        exact ih _ _ _ _ (by omega)
    · simp [explodeLoopS, hj]

lemma explodeLoopS_fuel_add (str : List Char)
    (k fuel : Nat) (m : Mapping) (b : List Char) (i j : Nat)
    (h : str.length ≤ fuel + j) :
    explodeLoopS str (fuel + k) m b i j = explodeLoopS str fuel m b i j := by
  induction k with
  | zero => rfl
  | succ k ih =>
    have : fuel + (k + 1) = (fuel + k) + 1 := by omega
    rw [this, explodeLoopS_fuel_succ str (fuel + k) m b i j (by omega), ih]

/-! ### The buffer is write-only: a prefix of the buffer passes through -/

lemma explodeLoopO_buffer (str : List Char) (o : Options) :
    ∀ (fuel : Nat) (m : Mapping) (b0 b : List Char) (i j : Nat),
      explodeLoopO str o fuel m (b0 ++ b) i j
        = (b0 ++ (explodeLoopO str o fuel m b i j).1,
           (explodeLoopO str o fuel m b i j).2) := by
  intro fuel
  induction fuel with
  | zero => intro m b0 b i j; simp [explodeLoopO]
  | succ fuel ih =>
    intro m b0 b i j
    by_cases hj : j < str.length
    · by_cases hd : str.getD j ' ' = '$'
      · by_cases hk : (getTemplateKey (str.drop (j + 1))).1 = []
        · simp only [explodeLoopO, hj, if_true, hd, hk, List.append_assoc]
          exact ih _ _ _ _ _
        · simp only [explodeLoopO, hj, if_true, hd, if_neg hk, List.append_assoc]
          exact ih _ _ _ _ _
      · simp only [explodeLoopO, hj, if_true, if_neg hd]
        exact ih _ _ _ _ _
    · simp [explodeLoopO, hj]

lemma explodeLoopS_buffer (str : List Char) :
    ∀ (fuel : Nat) (m : Mapping) (b0 b : List Char) (i j : Nat),
      explodeLoopS str fuel m (b0 ++ b) i j
        = b0 ++ explodeLoopS str fuel m b i j := by
  intro fuel
  induction fuel with
  | zero => intro m b0 b i j; simp [explodeLoopS]
  | succ fuel ih =>
    intro m b0 b i j
    by_cases hj : j < str.length
    · by_cases hd : str.getD j ' ' = '$'
      · by_cases hk : (getTemplateKey (str.drop (j + 1))).1 = []
        · simp only [explodeLoopS, hj, if_true, hd, hk, List.append_assoc]
          exact ih _ _ _ _ _
        · simp only [explodeLoopS, hj, if_true, hd, if_neg hk, List.append_assoc]
          exact ih _ _ _ _ _
      · simp only [explodeLoopS, hj, if_true, if_neg hd]
        exact ih _ _ _ _ _
    · simp [explodeLoopS, hj]

/-! ### Shift: the scan never looks left of the cursors -/

lemma jsSlice_append_add (a s : List Char) (x y : Nat) :
    jsSlice (a ++ s) (a.length + x) (a.length + y) = jsSlice s x y := by
  simp [jsSlice, drop_append_add, Nat.add_sub_add_left]

lemma explodeLoopO_shift (a s : List Char) (o : Options) :
    ∀ (fuel : Nat) (m : Mapping) (b : List Char) (i j : Nat),
      explodeLoopO (a ++ s) o fuel m b (a.length + i) (a.length + j)
        = explodeLoopO s o fuel m b i j := by
  intro fuel
  induction fuel with
  | zero => intro m b i j; simp [explodeLoopO, drop_append_add]
  | succ fuel ih =>
    intro m b i j
    have hlen : (a ++ s).length = a.length + s.length := List.length_append a s
    have hdrop : (a ++ s).drop (a.length + j + 1) = s.drop (j + 1) := by
      rw [Nat.add_assoc]; exact drop_append_add a s (j + 1)
    by_cases hj : j < s.length
    · have hj2 : a.length + j < (a ++ s).length := by omega
      by_cases hd : s.getD j ' ' = '$'
      · have hd2 : (a ++ s).getD (a.length + j) ' ' = '$' := by
          rw [getD_append_add]; exact hd
        by_cases hk : (getTemplateKey (s.drop (j + 1))).1 = []
        · have harith : a.length + j + (getTemplateKey (s.drop (j + 1))).2 + 1
              = a.length + (j + (getTemplateKey (s.drop (j + 1))).2 + 1) := by omega
          simp only [explodeLoopO, hj2, hj, if_true, hd2, hd, hdrop, hk,
            jsSlice_append_add, harith, ih]
        · have harith : a.length + j + (getTemplateKey (s.drop (j + 1))).2 + 1
              = a.length + (j + (getTemplateKey (s.drop (j + 1))).2 + 1) := by omega
          simp only [explodeLoopO, hj2, hj, if_true, hd2, hd, hdrop, if_neg hk,
            jsSlice_append_add, harith, ih]
      · have hd2 : ¬ (a ++ s).getD (a.length + j) ' ' = '$' := by
          rw [getD_append_add]; exact hd
        have harith : a.length + j + 1 = a.length + (j + 1) := by omega
        simp only [explodeLoopO, hj2, hj, if_true, if_neg hd2, if_neg hd, harith, ih]
    · have hj2 : ¬ a.length + j < (a ++ s).length := by omega
      simp [explodeLoopO, hj, hj2, drop_append_add]

lemma explodeLoopS_shift (a s : List Char) :
    ∀ (fuel : Nat) (m : Mapping) (b : List Char) (i j : Nat),
      explodeLoopS (a ++ s) fuel m b (a.length + i) (a.length + j)
        = explodeLoopS s fuel m b i j := by
  intro fuel
  induction fuel with
  | zero => intro m b i j; simp [explodeLoopS, drop_append_add]
  | succ fuel ih =>
    intro m b i j
    have hlen : (a ++ s).length = a.length + s.length := List.length_append a s
    have hdrop : (a ++ s).drop (a.length + j + 1) = s.drop (j + 1) := by
      rw [Nat.add_assoc]; exact drop_append_add a s (j + 1)
    by_cases hj : j < s.length
    · have hj2 : a.length + j < (a ++ s).length := by omega
      by_cases hd : s.getD j ' ' = '$'
      · have hd2 : (a ++ s).getD (a.length + j) ' ' = '$' := by
          rw [getD_append_add]; exact hd
        by_cases hk : (getTemplateKey (s.drop (j + 1))).1 = []
        · have harith : a.length + j + (getTemplateKey (s.drop (j + 1))).2 + 1
              = a.length + (j + (getTemplateKey (s.drop (j + 1))).2 + 1) := by omega
          simp only [explodeLoopS, hj2, hj, if_true, hd2, hd, hdrop, hk,
            jsSlice_append_add, harith, ih]
        · have harith : a.length + j + (getTemplateKey (s.drop (j + 1))).2 + 1
              = a.length + (j + (getTemplateKey (s.drop (j + 1))).2 + 1) := by omega
          simp only [explodeLoopS, hj2, hj, if_true, hd2, hd, hdrop, if_neg hk,
            jsSlice_append_add, harith, ih]
      · have hd2 : ¬ (a ++ s).getD (a.length + j) ' ' = '$' := by
          rw [getD_append_add]; exact hd
        have harith : a.length + j + 1 = a.length + (j + 1) := by omega
        simp only [explodeLoopS, hj2, hj, if_true, if_neg hd2, if_neg hd, harith, ih]
    · have hj2 : ¬ a.length + j < (a ++ s).length := by omega
      simp [explodeLoopS, hj, hj2, drop_append_add]

/-! ### Skip: scanning a dollar-free stretch only moves the scan cursor -/

lemma explodeLoopO_skip (str : List Char) (o : Options) :
    ∀ (k fuel : Nat) (m : Mapping) (b : List Char) (i j : Nat),
      (∀ d, d < k → str.getD (j + d) ' ' ≠ '$') →
      j + k ≤ str.length →
      explodeLoopO str o (k + fuel) m b i j = explodeLoopO str o fuel m b i (j + k) := by
  intro k
  induction k with
  | zero => intro fuel m b i j _ _; simp
  | succ k ih =>
    intro fuel m b i j hnd hle
    have hj : j < str.length := by omega
    have hd : ¬ str.getD j ' ' = '$' := by
      have := hnd 0 (by omega)
      simpa using this
    have hstep : k + 1 + fuel = (k + fuel) + 1 := by omega
    rw [hstep]
    simp only [explodeLoopO, hj, if_true, if_neg hd]
    have hrec := ih fuel m b i (j + 1)
      (fun d hd2 => by
        have := hnd (d + 1) (by omega)
        have harith : j + (d + 1) = j + 1 + d := by omega
        rwa [harith] at this)
      (by omega)
    rw [hrec]
    congr 1
    omega

lemma explodeLoopS_skip (str : List Char) :
    ∀ (k fuel : Nat) (m : Mapping) (b : List Char) (i j : Nat),
      (∀ d, d < k → str.getD (j + d) ' ' ≠ '$') →
      j + k ≤ str.length →
      explodeLoopS str (k + fuel) m b i j = explodeLoopS str fuel m b i (j + k) := by
  intro k
  induction k with
  | zero => intro fuel m b i j _ _; simp
  | succ k ih =>
    intro fuel m b i j hnd hle
    have hj : j < str.length := by omega
    have hd : ¬ str.getD j ' ' = '$' := by
      have := hnd 0 (by omega)
      simpa using this
    have hstep : k + 1 + fuel = (k + fuel) + 1 := by omega
    rw [hstep]
    simp only [explodeLoopS, hj, if_true, if_neg hd]
    have hrec := ih fuel m b i (j + 1)
      (fun d hd2 => by
        have := hnd (d + 1) (by omega)
        have harith : j + (d + 1) = j + 1 + d := by omega
        rwa [harith] at this)
      (by omega)
    rw [hrec]
    congr 1
    omega

/-! ### Facts about `getTemplateKey` -/

lemma jsIndexOf_eq_none (l : List Char) (c : Char) (h : c ∉ l) :
    jsIndexOf l c = none := by
  induction l with
  | nil => rfl
  | cons a l ih =>
    have ha : a ≠ c := by intro he; exact h (by simp [he])
    have h2 : c ∉ l := fun hm => h (List.mem_cons_of_mem _ hm)
    simp [jsIndexOf, ha, ih h2]

lemma jsIndexOf_brace (k t : List Char) (hk : '}' ∉ k) :
    jsIndexOf (k ++ '}' :: t) '}' = some k.length := by
  induction k with
  | nil => simp [jsIndexOf]
  | cons c k ih =>
    have hc : c ≠ '}' := by intro he; exact hk (by simp [he])
    have hk2 : '}' ∉ k := fun hm => hk (List.mem_cons_of_mem _ hm)
    simp [jsIndexOf, hc, ih hk2]

lemma jsIndexOf_lt (l : List Char) (c : Char) (e : Nat)
    (h : jsIndexOf l c = some e) : e < l.length := by
  induction l generalizing e with
  | nil => simp [jsIndexOf] at h
  | cons a l ih =>
    by_cases hac : a = c
    · simp [jsIndexOf, hac] at h
      simp only [List.length_cons]
      omega
    · simp only [jsIndexOf, if_neg hac, Option.map_eq_some'] at h
      obtain ⟨e2, he2, rfl⟩ := h
      have := ih e2 he2
      simp only [List.length_cons]
      omega

lemma alnumLen_le (l : List Char) : alnumLen l ≤ l.length := by
  induction l with
  | nil => simp [alnumLen]
  | cons c l ih =>
    by_cases hc : isAlphaNumeric c
    · simp [alnumLen, hc]; omega
    · simp [alnumLen, hc]

lemma alnumLen_all (l : List Char) (h : l.all isAlphaNumeric = true) :
    alnumLen l = l.length := by
  induction l with
  | nil => rfl
  | cons c l ih =>
    simp only [List.all_cons, Bool.and_eq_true] at h
    simp [alnumLen, h.1, ih h.2]

lemma getTemplateKey_len_le (s : List Char) : (getTemplateKey s).2 ≤ s.length := by
  unfold getTemplateKey
  by_cases h1 : s.headD ' ' = '{'
  · rw [if_pos h1]
    cases hj : jsIndexOf s '}' with
    | none => simp
    | some e =>
      have he := jsIndexOf_lt s '}' e hj
      by_cases h2 : e = 1
      · simp only [if_pos h2]
        omega
      · simp only [if_neg h2]
        omega
  · rw [if_neg h1]
    by_cases h2 : isShellSpecialVar (s.headD ' ') = true
    · rw [if_pos h2]
      simp
    · rw [if_neg h2]
      exact alnumLen_le s

lemma getTemplateKey_braced (k t : List Char) (hk : '}' ∉ k) :
    getTemplateKey ('{' :: (k ++ '}' :: t)) = (k, k.length + 2) := by
  have hidx : jsIndexOf ('{' :: (k ++ '}' :: t)) '}' = some (k.length + 1) := by
    have h1 := jsIndexOf_brace k t hk
    simp [jsIndexOf, h1]
  unfold getTemplateKey
  rw [if_pos (by simp), hidx]
  cases k with
  | nil => simp
  | cons c k2 =>
    show (if (c :: k2).length + 1 = 1 then ([], 2)
      else (jsSlice ('{' :: (c :: k2 ++ '}' :: t)) 1 ((c :: k2).length + 1),
            (c :: k2).length + 1 + 1)) = (c :: k2, (c :: k2).length + 2)
    rw [if_neg (by simp only [List.length_cons]; omega)]
    have hslice : jsSlice ('{' :: (c :: k2 ++ '}' :: t)) 1 ((c :: k2).length + 1)
        = c :: k2 := by
      simp only [jsSlice, List.drop_succ_cons, List.drop_zero, Nat.add_sub_cancel]
      exact take_append_len (c :: k2) ('}' :: t)
    rw [hslice]

lemma getTemplateKey_unterminated (t : List Char) (ht : '}' ∉ t) :
    getTemplateKey ('{' :: t) = ([], t.length + 1) := by
  have hidx : jsIndexOf ('{' :: t) '}' = none := by
    have h1 := jsIndexOf_eq_none t '}' ht
    simp [jsIndexOf, h1]
  unfold getTemplateKey
  rw [if_pos (by simp), hidx]
  simp

lemma shellSpecial_ne_brace (c : Char) (h : isShellSpecialVar c = true) : c ≠ '{' := by
  intro he
  rw [he] at h
  exact absurd h (by decide)

lemma getTemplateKey_special (c : Char) (t : List Char)
    (h : isShellSpecialVar c = true) :
    getTemplateKey (c :: t) = ([], 0) := by
  unfold getTemplateKey
  rw [if_neg (by simpa using shellSpecial_ne_brace c h), if_pos (by simpa using h)]

lemma alnum_ne_brace (c : Char) (h : isAlphaNumeric c = true) : c ≠ '{' := by
  intro he
  rw [he] at h
  exact absurd h (by decide)

lemma getTemplateKey_bare (k : List Char) (h1 : k.all isAlphaNumeric = true)
    (h2 : k ≠ []) (h3 : isShellSpecialVar (k.headD ' ') = false) :
    getTemplateKey k = (k, k.length) := by
  have hh : k.headD ' ' ≠ '{' := by
    cases k with
    | nil => exact absurd rfl h2
    | cons c k2 =>
      simp only [List.all_cons, Bool.and_eq_true] at h1
      simpa using alnum_ne_brace c h1.1
  unfold getTemplateKey
  rw [if_neg hh, if_neg (by rw [h3]; simp), alnumLen_all k h1, List.take_length]

/-! ### Facts about the default-value split -/

lemma jsSplitOps_ne_nil (l : List Char) : jsSplitOps l ≠ [] := by
  induction l with
  | nil => simp [jsSplitOps]
  | cons c l ih =>
    cases l with
    | nil => simp [jsSplitOps]
    | cons c2 l2 =>
      by_cases hc : c = ':' ∧ (c2 = '=' ∨ c2 = '-')
      · simp [jsSplitOps, hc]
      · cases hs : jsSplitOps (c2 :: l2) with
        | nil => simp [jsSplitOps, hc, hs]
        | cons h t => simp [jsSplitOps, hc, hs]

lemma hasOp_cons_false (c c2 : Char) (l2 : List Char)
    (h : hasOp (c :: c2 :: l2) = false) :
    ¬(c = ':' ∧ (c2 = '=' ∨ c2 = '-')) ∧ hasOp (c2 :: l2) = false := by
  by_cases hc : c = ':' ∧ (c2 = '=' ∨ c2 = '-')
  · rw [show hasOp (c :: c2 :: l2)
        = if c = ':' ∧ (c2 = '=' ∨ c2 = '-') then true else hasOp (c2 :: l2)
      from rfl, if_pos hc] at h
    exact absurd h (by simp)
  · rw [show hasOp (c :: c2 :: l2)
        = if c = ':' ∧ (c2 = '=' ∨ c2 = '-') then true else hasOp (c2 :: l2)
      from rfl, if_neg hc] at h
    exact ⟨hc, h⟩

lemma jsSplitOps_noOp (l : List Char) (h : hasOp l = false) :
    jsSplitOps l = [l] := by
  induction l with
  | nil => rfl
  | cons c l ih =>
    cases l with
    | nil => rfl
    | cons c2 l2 =>
      obtain ⟨hc, h2⟩ := hasOp_cons_false c c2 l2 h
      simp [jsSplitOps, hc, ih h2]

lemma jsSplitOps_op (a : List Char) (c2 : Char) (r : List Char)
    (ha : hasOp a = false) (hc : c2 = '=' ∨ c2 = '-') :
    jsSplitOps (a ++ ':' :: c2 :: r) = a :: jsSplitOps r := by
  induction a with
  | nil => simp [jsSplitOps, hc]
  | cons c a ih =>
    cases a with
    | nil =>
      have hop : ¬(c = ':' ∧ (':' = '=' ∨ ':' = '-')) := by
        rintro ⟨-, h | h⟩ <;> exact absurd h (by decide)
      simp [jsSplitOps, hop, hc]
    | cons c3 a2 =>
      obtain ⟨hop, ha2⟩ := hasOp_cons_false c c3 a2 ha
      have ih2 := ih ha2
      rw [List.cons_append] at ih2
      simp only [List.cons_append, jsSplitOps, if_neg hop, List.append_eq]
      rw [ih2]

lemma hasColonEq_append (x y : List Char) :
    hasColonEq (x ++ ':' :: '=' :: y) = true := by
  induction x with
  | nil => simp [hasColonEq]
  | cons c x ih =>
    cases x with
    | nil => simp [hasColonEq]
    | cons c2 x2 =>
      by_cases hc : c = ':' ∧ c2 = '='
      · simp [hasColonEq, hc]
      · rw [List.cons_append, List.cons_append]
        rw [show hasColonEq (c :: c2 :: (x2 ++ ':' :: '=' :: y))
            = if c = ':' ∧ c2 = '='
              then true else hasColonEq (c2 :: (x2 ++ ':' :: '=' :: y))
          from rfl, if_neg hc]
        simpa using ih

lemma hasColonEq_imp_hasOp (l : List Char) (h : hasColonEq l = true) :
    hasOp l = true := by
  induction l with
  | nil => simp [hasColonEq] at h
  | cons c l ih =>
    cases l with
    | nil => simp [hasColonEq] at h
    | cons c2 l2 =>
      by_cases hc : c = ':' ∧ c2 = '='
      · simp [hasOp, hc]
      · rw [hasColonEq, if_neg hc] at h
        by_cases hop : c = ':' ∧ (c2 = '=' ∨ c2 = '-')
        · simp [hasOp, hop]
        · rw [hasOp, if_neg hop]
          exact ih h

/-! ### Decomposition: processing of one placeholder at the first dollar -/

lemma skip_prefix_O (p rest : List Char) (m : Mapping) (o : Options) (hp : '$' ∉ p) :
    explodeRunO (p ++ '$' :: rest) m o
      = explodeLoopO (p ++ '$' :: rest) o (rest.length + 1) m [] 0 p.length := by
  unfold explodeRunO
  have hl : (p ++ '$' :: rest).length = p.length + (rest.length + 1) := by
    simp [List.length_append]
  rw [hl]
  have hskip := explodeLoopO_skip (p ++ '$' :: rest) o p.length (rest.length + 1) m [] 0 0
    (fun d hd => by
      have h1 : (p ++ '$' :: rest).getD (0 + d) ' ' = p.getD d ' ' := by
        rw [Nat.zero_add]; exact getD_append_lt p _ d ' ' hd
      rw [h1]
      intro he
      exact hp (he ▸ getD_mem p d ' ' hd))
    (by omega)
  rw [Nat.add_comm p.length (rest.length + 1)] at hl
  rw [show p.length + (rest.length + 1) = p.length + (rest.length + 1) from rfl, hskip]
  simp

lemma skip_prefix_S (p rest : List Char) (m : Mapping) (hp : '$' ∉ p) :
    explodeRunS (p ++ '$' :: rest) m
      = explodeLoopS (p ++ '$' :: rest) (rest.length + 1) m [] 0 p.length := by
  unfold explodeRunS
  have hl : (p ++ '$' :: rest).length = p.length + (rest.length + 1) := by
    simp [List.length_append]
  rw [hl]
  have hskip := explodeLoopS_skip (p ++ '$' :: rest) p.length (rest.length + 1) m [] 0 0
    (fun d hd => by
      have h1 : (p ++ '$' :: rest).getD (0 + d) ' ' = p.getD d ' ' := by
        rw [Nat.zero_add]; exact getD_append_lt p _ d ' ' hd
      rw [h1]
      intro he
      exact hp (he ▸ getD_mem p d ' ' hd))
    (by omega)
  rw [hskip]
  simp

lemma explodeLoopO_tail (p rest E : List Char) (m2 : Mapping) (o : Options) (len : Nat)
    (hlen : len ≤ rest.length) :
    explodeLoopO (p ++ '$' :: rest) o rest.length m2 (p ++ E)
        (p.length + len + 1) (p.length + len + 1)
      = ((p ++ E) ++ (explodeRunO (rest.drop len) m2 o).1,
         (explodeRunO (rest.drop len) m2 o).2) := by
  have hsplit : p ++ '$' :: rest = (p ++ '$' :: rest.take len) ++ rest.drop len := by
    rw [List.append_assoc, List.cons_append, List.take_append_drop]
  have ha : (p ++ '$' :: rest.take len).length + 0 = p.length + len + 1 := by
    simp only [List.length_append, List.length_cons, List.length_take]
    omega
  rw [hsplit, ← ha, explodeLoopO_shift (p ++ '$' :: rest.take len) (rest.drop len) o
    rest.length m2 (p ++ E) 0 0]
  have hb := explodeLoopO_buffer (rest.drop len) o rest.length m2 (p ++ E) [] 0 0
  rw [List.append_nil] at hb
  rw [hb]
  have hfl : rest.length = (rest.drop len).length + len := by
    simp only [List.length_drop]
    omega
  rw [hfl, explodeLoopO_fuel_add (rest.drop len) o len (rest.drop len).length m2 [] 0 0
    (by omega)]
  rfl

lemma explodeLoopS_tail (p rest E : List Char) (m2 : Mapping) (len : Nat)
    (hlen : len ≤ rest.length) :
    explodeLoopS (p ++ '$' :: rest) rest.length m2 (p ++ E)
        (p.length + len + 1) (p.length + len + 1)
      = (p ++ E) ++ explodeRunS (rest.drop len) m2 := by
  have hsplit : p ++ '$' :: rest = (p ++ '$' :: rest.take len) ++ rest.drop len := by
    rw [List.append_assoc, List.cons_append, List.take_append_drop]
  have ha : (p ++ '$' :: rest.take len).length + 0 = p.length + len + 1 := by
    simp only [List.length_append, List.length_cons, List.length_take]
    omega
  rw [hsplit, ← ha, explodeLoopS_shift (p ++ '$' :: rest.take len) (rest.drop len)
    rest.length m2 (p ++ E) 0 0]
  have hb := explodeLoopS_buffer (rest.drop len) rest.length m2 (p ++ E) [] 0 0
  rw [List.append_nil] at hb
  rw [hb]
  have hfl : rest.length = (rest.drop len).length + len := by
    simp only [List.length_drop]
    omega
  rw [hfl, explodeLoopS_fuel_add (rest.drop len) len (rest.drop len).length m2 [] 0 0
    (by omega)]
  rfl

lemma slice_prefix (p rest : List Char) :
    jsSlice (p ++ '$' :: rest) 0 p.length = p := by
  simp only [jsSlice, List.drop_zero, Nat.sub_zero]
  exact take_append_len p ('$' :: rest)

lemma slice_lit (p rest : List Char) (len : Nat) :
    jsSlice (p ++ '$' :: rest) p.length (p.length + len + 1)
      = '$' :: rest.take len := by
  simp only [jsSlice]
  have hd0 : (p ++ '$' :: rest).drop p.length = '$' :: rest := by
    have := drop_append_add p ('$' :: rest) 0
    simpa using this
  rw [hd0, show p.length + len + 1 - p.length = len + 1 from by omega, List.take_succ_cons]

lemma explodeRunO_valid (p rest : List Char) (m : Mapping) (o : Options)
    (hp : '$' ∉ p) (hk : (getTemplateKey rest).1 ≠ []) :
    explodeRunO (p ++ '$' :: rest) m o
      = (p ++ emitO o m ('$' :: rest.take (getTemplateKey rest).2) (getTemplateKey rest).1
            ++ (explodeRunO (rest.drop (getTemplateKey rest).2)
                  (updateO o m (getTemplateKey rest).1) o).1,
         (explodeRunO (rest.drop (getTemplateKey rest).2)
            (updateO o m (getTemplateKey rest).1) o).2) := by
  rw [skip_prefix_O p rest m o hp]
  have hjlt : p.length < (p ++ '$' :: rest).length := by
    simp [List.length_append]
  have hdol : (p ++ '$' :: rest).getD p.length ' ' = '$' := by
    have := getD_append_add p ('$' :: rest) 0 ' '
    simpa using this
  have hdrop : (p ++ '$' :: rest).drop (p.length + 1) = rest := by
    have := drop_append_add p ('$' :: rest) 1
    simpa using this
  simp only [explodeLoopO, hjlt, if_true, hdol, hdrop, if_neg hk,
    slice_prefix, slice_lit, List.nil_append]
  exact explodeLoopO_tail p rest _ _ o _ (getTemplateKey_len_le rest)

lemma explodeRunO_invalid (p rest : List Char) (m : Mapping) (o : Options)
    (hp : '$' ∉ p) (hk : (getTemplateKey rest).1 = []) :
    explodeRunO (p ++ '$' :: rest) m o
      = (p ++ ('$' :: rest.take (getTemplateKey rest).2)
            ++ (explodeRunO (rest.drop (getTemplateKey rest).2) m o).1,
         (explodeRunO (rest.drop (getTemplateKey rest).2) m o).2) := by
  rw [skip_prefix_O p rest m o hp]
  have hjlt : p.length < (p ++ '$' :: rest).length := by
    simp [List.length_append]
  have hdol : (p ++ '$' :: rest).getD p.length ' ' = '$' := by
    have := getD_append_add p ('$' :: rest) 0 ' '
    simpa using this
  have hdrop : (p ++ '$' :: rest).drop (p.length + 1) = rest := by
    have := drop_append_add p ('$' :: rest) 1
    simpa using this
  simp only [explodeLoopO, hjlt, if_true, hdol, hdrop, hk,
    slice_prefix, slice_lit, List.nil_append]
  exact explodeLoopO_tail p rest _ _ o _ (getTemplateKey_len_le rest)

lemma explodeRunS_valid (p rest : List Char) (m : Mapping)
    (hp : '$' ∉ p) (hk : (getTemplateKey rest).1 ≠ []) :
    explodeRunS (p ++ '$' :: rest) m
      = p ++ jsIndexOrEmpty m (getTemplateKey rest).1
          ++ explodeRunS (rest.drop (getTemplateKey rest).2) m := by
  rw [skip_prefix_S p rest m hp]
  have hjlt : p.length < (p ++ '$' :: rest).length := by
    simp [List.length_append]
  have hdol : (p ++ '$' :: rest).getD p.length ' ' = '$' := by
    have := getD_append_add p ('$' :: rest) 0 ' '
    simpa using this
  have hdrop : (p ++ '$' :: rest).drop (p.length + 1) = rest := by
    have := drop_append_add p ('$' :: rest) 1
    simpa using this
  simp only [explodeLoopS, hjlt, if_true, hdol, hdrop, if_neg hk,
    slice_prefix, slice_lit, List.nil_append]
  exact explodeLoopS_tail p rest _ _ _ (getTemplateKey_len_le rest)

lemma explodeRunS_invalid (p rest : List Char) (m : Mapping)
    (hp : '$' ∉ p) (hk : (getTemplateKey rest).1 = []) :
    explodeRunS (p ++ '$' :: rest) m
      = p ++ ('$' :: rest.take (getTemplateKey rest).2)
          ++ explodeRunS (rest.drop (getTemplateKey rest).2) m := by
  rw [skip_prefix_S p rest m hp]
  have hjlt : p.length < (p ++ '$' :: rest).length := by
    simp [List.length_append]
  have hdol : (p ++ '$' :: rest).getD p.length ' ' = '$' := by
    have := getD_append_add p ('$' :: rest) 0 ' '
    simpa using this
  have hdrop : (p ++ '$' :: rest).drop (p.length + 1) = rest := by
    have := drop_append_add p ('$' :: rest) 1
    simpa using this
  simp only [explodeLoopS, hjlt, if_true, hdol, hdrop, hk,
    slice_prefix, slice_lit, List.nil_append]
  exact explodeLoopS_tail p rest _ _ _ (getTemplateKey_len_le rest)

lemma explodeRunO_noDollar (s : List Char) (m : Mapping) (o : Options) (h : '$' ∉ s) :
    explodeRunO s m o = (s, m) := by
  unfold explodeRunO
  have hskip := explodeLoopO_skip s o s.length 0 m [] 0 0
    (fun d hd => by
      rw [Nat.zero_add]
      intro he
      exact h (he ▸ getD_mem s d ' ' hd))
    (by omega)
  rw [show explodeLoopO s o s.length m [] 0 0
      = explodeLoopO s o (s.length + 0) m [] 0 0 from rfl, hskip]
  simp [explodeLoopO]

lemma explodeRunS_noDollar (s : List Char) (m : Mapping) (h : '$' ∉ s) :
    explodeRunS s m = s := by
  unfold explodeRunS
  have hskip := explodeLoopS_skip s s.length 0 m [] 0 0
    (fun d hd => by
      rw [Nat.zero_add]
      intro he
      exact h (he ▸ getD_mem s d ' ' hd))
    (by omega)
  rw [show explodeLoopS s s.length m [] 0 0
      = explodeLoopS s (s.length + 0) m [] 0 0 from rfl, hskip]
  simp [explodeLoopS]

lemma explodeRunO_nil (m : Mapping) (o : Options) : explodeRunO [] m o = ([], m) := rfl

lemma explodeRunS_nil (m : Mapping) : explodeRunS [] m = [] := rfl

/-! ### Shape lemmas for the emit and update steps -/

lemma hasKey_of_lookup (m : Mapping) (k : List Char) (w : Option (List Char))
    (h : lookupEntry m k = some w) : hasKey m k = true := by
  rw [hasKey, h]; rfl

lemma hasKey_of_none (m : Mapping) (k : List Char)
    (h : lookupEntry m k = none) : hasKey m k = false := by
  rw [hasKey, h]; rfl

lemma jsIndex_of_lookup (m : Mapping) (k : List Char) (w : Option (List Char))
    (h : lookupEntry m k = some w) : jsIndex m k = w := by
  rw [jsIndex, h]; rfl

lemma emitO_hasKey (o : Options) (m : Mapping) (lit key : List Char)
    (h : hasKey m (splitKey key).1 = true) :
    emitO o m lit key = jsConcatVal (jsIndex m (splitKey key).1) := by
  rw [emitO, if_pos h]

lemma updateO_hasKey (o : Options) (m : Mapping) (key : List Char)
    (h : hasKey m (splitKey key).1 = true) :
    updateO o m key = m := by
  rw [updateO, if_neg (by simp [h])]

lemma emitO_noKey_dv (o : Options) (m : Mapping) (lit key : List Char)
    (h : hasKey m (splitKey key).1 = false)
    (hdv : dvTruthy (splitKey key).2 = true)
    (hde : o.ignoreDefaultExpansion = false) :
    emitO o m lit key = ((splitKey key).2).getD [] := by
  rw [emitO, if_neg (by simp [h]), if_pos (by simp [hdv, hde])]

lemma emitO_noKey_noDv (o : Options) (m : Mapping) (lit key : List Char)
    (h : hasKey m (splitKey key).1 = false)
    (hdv : dvTruthy (splitKey key).2 = false) :
    emitO o m lit key = if o.ignoreUnsetVars then lit else [] := by
  rw [emitO, if_neg (by simp [h]), if_neg (by simp [hdv])]

lemma updateO_noDv (o : Options) (m : Mapping) (key : List Char)
    (hdv : dvTruthy (splitKey key).2 = false) :
    updateO o m key = m := by
  rw [updateO, if_neg (by simp [hdv])]

lemma updateO_noColonEq (o : Options) (m : Mapping) (key : List Char)
    (hce : hasColonEq key = false) :
    updateO o m key = m := by
  rw [updateO, if_neg (by simp [hce])]

lemma updateO_insert (o : Options) (m : Mapping) (key : List Char)
    (hde : o.ignoreDefaultExpansion = false)
    (h : hasKey m (splitKey key).1 = false)
    (hdv : dvTruthy (splitKey key).2 = true)
    (hce : hasColonEq key = true) :
    updateO o m key = setKey m (splitKey key).1 (((splitKey key).2).getD []) := by
  rw [updateO, if_pos (by simp [hde, h, hdv, hce])]

/-! ### Claims -/

/-- C1: for every template, mapping and options record, `explode` returns a
defined output and never signals a fault: the scan is total — any fuel beyond
`str.length` gives the same (defined) result — and the malformed templates
`"${"`, a trailing lone `"$"` and `"a$"` all produce defined outputs, for
every mapping and options. -/
theorem spec_C1 : ∀ (s : List Char) (m : Mapping) (o : Options) (extra : Nat),
    explodeLoopO s o (s.length + extra) m [] 0 0 = explodeRunO s m o
    ∧ explode "$\x7b" m o = "$\x7b"
    ∧ explode "$" m o = "$"
    ∧ explode "a$" m o = "a$" := by
  intro s m o extra
  refine ⟨?_, rfl, rfl, rfl⟩
  exact explodeLoopO_fuel_add s o extra s.length m [] 0 0 (by omega)

/-- C5 counterexample: `explode "${}" {}` is not the empty string (it is the
literal `"${}"`). -/
theorem spec_C5_cex : explode "${}" ([] : Mapping) DEFAULT_OPTIONS ≠ "" := by
  decide

/-- C5 (amended): for the template `"${}"` and every mapping and options,
`explode` returns `"${}"`: `getTemplateKey` reports an empty key with consumed
length 2, so the scan consumes the three characters `$`, `{`, `}` and emits
that literal slice verbatim (not nothing). -/
theorem spec_C5 : ∀ (m : Mapping) (o : Options),
    explode "${}" m o = "${}" ∧ getTemplateKey ['{', '}'] = ([], 2) := by
  intro m o
  exact ⟨rfl, rfl⟩

/-- C2 (the code, not the claim): in the options variant, a placeholder whose
`realKey` is present in the mapping with an absent/undefined stored value
emits the literal text `"undefined"` (JS coerces `undefined` in
`buffer += m[realKey]`), not empty text. -/
theorem spec_C2 :
    explode "${name}" [("name".data, none)] DEFAULT_OPTIONS = "undefined" := by
  decide

/-- C8: the caller's mapping is never mutated: the call copies the mapping and
all `:=` insertions target the copy, so the caller's mapping after a call is
the argument itself, a second call with the resulting mapping returns the
identical result, and (third conjunct) the working copy really is augmented
by `:=` — locally to the call — while the caller's mapping stays as passed. -/
theorem spec_C8 : ∀ (s : String) (m : Mapping) (o : Options),
    (explodeCall s m o).2 = m
    ∧ explodeCall s (explodeCall s m o).2 o = explodeCall s m o
    ∧ (explodeRunO ("${a:=b}".data) (copyMapping []) DEFAULT_OPTIONS).2
        = [("a".data, some "b".data)] := by
  intro s m o
  exact ⟨rfl, rfl, by decide⟩

/-- C10: doubling the dollar sign does not escape a placeholder: `$` followed
by the special character `$` consumes zero extra characters, the scan resumes
at the second `$`, and for every mapping with `m["name"] = v` (a defined
string), `explode "$$name"` is `"$" ++ v` in both variants. -/
theorem spec_C10 : ∀ (m : Mapping) (o : Options) (v : List Char),
    lookupEntry m "name".data = some (some v) →
    (explodeRunO "$$name".data m o).1 = '$' :: v
    ∧ explodeRunS "$$name".data m = '$' :: v := by
  intro m o v h
  have hhk : hasKey m "name".data = true := hasKey_of_lookup m _ _ h
  have hji : jsIndex m "name".data = some v := jsIndex_of_lookup m _ _ h
  have hsplit : splitKey "name".data = ("name".data, (none : Option (List Char))) := by
    decide
  have hhk2 : hasKey m (splitKey "name".data).1 = true := by rw [hsplit]; exact hhk
  have e1 : "$$name".data = ([] : List Char) ++ '$' :: ('$' :: "name".data) := rfl
  have hk1 : (getTemplateKey ('$' :: "name".data)).1 = [] := by decide
  have hl1 : (getTemplateKey ('$' :: "name".data)).2 = 0 := by decide
  have hk2 : (getTemplateKey "name".data).1 ≠ [] := by decide
  have hkey2 : (getTemplateKey "name".data).1 = "name".data := by decide
  have hl2 : (getTemplateKey "name".data).2 = 4 := by decide
  have e2 : ('$' :: "name".data) = ([] : List Char) ++ '$' :: "name".data := rfl
  constructor
  · rw [e1, explodeRunO_invalid [] ('$' :: "name".data) m o (by simp) hk1, hl1]
    dsimp only
    simp only [List.take_zero, List.drop_zero, List.nil_append]
    rw [e2, explodeRunO_valid [] "name".data m o (by simp) hk2, hkey2, hl2]
    dsimp only
    rw [emitO_hasKey o m _ _ hhk2, hsplit, updateO_hasKey o m _ hhk2]
    dsimp only
    rw [hji]
    have hdrop4 : "name".data.drop 4 = [] := by decide
    rw [hdrop4, explodeRunO_nil]
    simp [jsConcatVal]
  · rw [e1, explodeRunS_invalid [] ('$' :: "name".data) m (by simp) hk1, hl1]
    simp only [List.take_zero, List.drop_zero, List.nil_append]
    rw [e2, explodeRunS_valid [] "name".data m (by simp) hk2, hkey2, hl2]
    have hdrop4 : "name".data.drop 4 = [] := by decide
    rw [hdrop4, explodeRunS_nil]
    rw [jsIndexOrEmpty, hji]
    simp

/-- C10 witness: at the mapping `{name: "World"}` the hypothesis holds and
both variants produce `"$World"`. -/
theorem spec_C10_witness :
    lookupEntry [("name".data, some "World".data)] "name".data
        = some (some "World".data)
    ∧ (explodeRunO "$$name".data [("name".data, some "World".data)]
          DEFAULT_OPTIONS).1 = '$' :: "World".data
    ∧ explodeRunS "$$name".data [("name".data, some "World".data)]
        = '$' :: "World".data := by
  refine ⟨by decide, ?_, ?_⟩
  · exact (spec_C10 [("name".data, some "World".data)] DEFAULT_OPTIONS "World".data
      (by decide)).1
  · exact (spec_C10 [("name".data, some "World".data)] DEFAULT_OPTIONS "World".data
      (by decide)).2

/-- C6: whenever key parsing fails the literal slice from the `$` through the
inspected characters is emitted verbatim: for every dollar-free prefix `p`,
mapping and options, (a) a trailing lone `$` yields `p ++ "$"`, (b) an
unterminated `${t` (no closing brace) yields the whole input verbatim, and
(c) `$` followed by a shell special character `c` yields `p ++ "$" ++ c`
(the `$` is emitted as the literal slice and `c` rescanned as ordinary
text). -/
theorem spec_C6 : ∀ (p t : List Char) (c : Char) (m : Mapping) (o : Options),
    '$' ∉ p →
    ((explodeRunO (p ++ ['$']) m o).1 = p ++ ['$'])
    ∧ ('}' ∉ t →
        (explodeRunO (p ++ '$' :: '{' :: t) m o).1 = p ++ '$' :: '{' :: t)
    ∧ (isShellSpecialVar c = true →
        (explodeRunO (p ++ ['$', c]) m o).1 = p ++ ['$', c]) := by
  intro p t c m o hp
  refine ⟨?_, ?_, ?_⟩
  · have h := explodeRunO_invalid p [] m o hp (by decide)
    rw [show p ++ ['$'] = p ++ '$' :: ([] : List Char) from rfl, h]
    simp [explodeRunO_nil]
  · intro ht
    have hgt := getTemplateKey_unterminated t ht
    have h := explodeRunO_invalid p ('{' :: t) m o hp (by rw [hgt])
    rw [h, hgt]
    dsimp only
    simp [List.take_succ_cons, List.drop_succ_cons, explodeRunO_nil]
  · intro hc
    have hgt := getTemplateKey_special c [] hc
    have h := explodeRunO_invalid p [c] m o hp (by rw [hgt])
    rw [show p ++ ['$', c] = p ++ '$' :: [c] from rfl, h, hgt]
    dsimp only
    simp only [List.take_zero, List.drop_zero]
    by_cases hcd : c = '$'
    · subst hcd
      have h2 := explodeRunO_invalid [] ([] : List Char) m o (by simp) (by decide)
      rw [show (['$'] : List Char) = ([] : List Char) ++ '$' :: ([] : List Char)
        from rfl, h2]
      simp [explodeRunO_nil]
    · rw [explodeRunO_noDollar [c] m o
        (fun hmem => hcd (List.mem_singleton.mp hmem).symm)]
      simp

/-- C6 witness: concrete instances of the three failure shapes at
`p = "a"`, `t = "k"`, `c = '1'`, the empty mapping and default options. -/
theorem spec_C6_witness :
    (explodeRunO (['a'] ++ ['$']) [] DEFAULT_OPTIONS).1 = ['a'] ++ ['$']
    ∧ (explodeRunO (['a'] ++ '$' :: '{' :: ['k']) [] DEFAULT_OPTIONS).1
        = ['a'] ++ '$' :: '{' :: ['k']
    ∧ (explodeRunO (['a'] ++ ['$', '1']) [] DEFAULT_OPTIONS).1
        = ['a'] ++ ['$', '1'] := by
  have h := spec_C6 ['a'] ['k'] '1' [] DEFAULT_OPTIONS (by decide)
  exact ⟨h.1, h.2.1 (by decide), h.2.2 (by decide)⟩

/-- C7: in the simple variant the parsed key — including any `:` characters in
a braced key — is used as-is for the lookup `mapping[key] ?? ""`, with no
default-value splitting, and an unresolved key substitutes the empty string
(`jsIndexOrEmpty` yields `[]` when the key is absent or stored undefined):
for every dollar-free prefix `p`, key text `k` and mapping, a braced
placeholder `${k}` at the end resolves to `jsIndexOrEmpty m k`, and so does a
bare word placeholder `$k`; concretely `explode "Hello, $name!" {}` is
`"Hello, !"`. -/
theorem spec_C7 : ∀ (p k : List Char) (m : Mapping),
    '$' ∉ p →
    (k ≠ [] → '}' ∉ k →
      explodeRunS (p ++ '$' :: '{' :: (k ++ ['}'])) m = p ++ jsIndexOrEmpty m k)
    ∧ (k ≠ [] → k.all isAlphaNumeric = true →
        isShellSpecialVar (k.headD ' ') = false →
        explodeRunS (p ++ '$' :: k) m = p ++ jsIndexOrEmpty m k)
    ∧ explodeSimple "Hello, $name!" [] = "Hello, !" := by
  intro p k m hp
  refine ⟨?_, ?_, by decide⟩
  · intro hne hbr
    have hgt : getTemplateKey ('{' :: (k ++ ['}'])) = (k, k.length + 2) :=
      getTemplateKey_braced k [] hbr
    have h := explodeRunS_valid p ('{' :: (k ++ ['}'])) m hp (by rw [hgt]; exact hne)
    rw [h, hgt]
    dsimp only
    have hdrop : ('{' :: (k ++ ['}'])).drop (k.length + 2) = [] := by
      rw [show k.length + 2 = (k.length + 1) + 1 from rfl, List.drop_succ_cons]
      have := drop_append_add k ['}'] 1
      simpa using this
    rw [hdrop, explodeRunS_nil]
    simp
  · intro hne hall hsp
    have hgt : getTemplateKey k = (k, k.length) :=
      getTemplateKey_bare k hall hne hsp
    have h := explodeRunS_valid p k m hp (by rw [hgt]; exact hne)
    rw [h, hgt]
    dsimp only
    rw [List.drop_length, explodeRunS_nil]
    simp

/-- C7 witness: a braced key containing `:-` is looked up as-is (resolving to
`"x"` under `{"a:-b": "x"}`), and a bare unresolved key substitutes empty. -/
theorem spec_C7_witness :
    explodeRunS ("Hello, ".data ++ '$' :: '{' :: ("a:-b".data ++ ['}']))
        [("a:-b".data, some "x".data)]
      = "Hello, ".data ++ jsIndexOrEmpty [("a:-b".data, some "x".data)] "a:-b".data
    ∧ explodeRunS ("Hello, ".data ++ '$' :: "name".data) []
      = "Hello, ".data ++ jsIndexOrEmpty [] "name".data := by
  have h1 := spec_C7 "Hello, ".data "a:-b".data [("a:-b".data, some "x".data)]
    (by decide)
  have h2 := spec_C7 "Hello, ".data "name".data [] (by decide)
  exact ⟨h1.1 (by decide) (by decide), h2.2.1 (by decide) (by decide) (by decide)⟩

/-- C9: an empty default (`${key:-}` or `${key:=}`) is treated as if no default
were given: for every mapping without the key and every options record, the
placeholder emits nothing when `ignoreUnsetVars` is false, emits the literal
placeholder text when it is true, and `:=` with an empty default never inserts
the key into the working copy (observable: a following `${key}` still behaves
as unset). -/
theorem spec_C9 : ∀ (m : Mapping) (o : Options),
    hasKey m "key".data = false →
    (o.ignoreUnsetVars = false →
      (explodeRunO "${key:-}".data m o).1 = []
      ∧ (explodeRunO "${key:=}".data m o).1 = [])
    ∧ (o.ignoreUnsetVars = true →
      (explodeRunO "${key:-}".data m o).1 = "${key:-}".data
      ∧ (explodeRunO "${key:=}".data m o).1 = "${key:=}".data
      ∧ (explodeRunO "${key:=}${key}".data m o).1 = "${key:=}${key}".data) := by
  intro m o hm
  have hsp1 : splitKey "key:-".data = ("key".data, some ([] : List Char)) := by decide
  have hsp2 : splitKey "key:=".data = ("key".data, some ([] : List Char)) := by decide
  have hsp3 : splitKey "key".data = ("key".data, (none : Option (List Char))) := by decide
  have hA : (explodeRunO "${key:-}".data m o).1
      = (if o.ignoreUnsetVars then "${key:-}".data else []) := by
    rw [show "${key:-}".data
        = ([] : List Char) ++ '$' :: ('{' :: ("key:-".data ++ ['}'])) from rfl]
    rw [explodeRunO_valid [] _ m o (by simp) (by decide)]
    rw [show getTemplateKey ('{' :: ("key:-".data ++ ['}'])) = ("key:-".data, 7)
      from by decide]
    dsimp only
    rw [emitO_noKey_noDv o m _ _ (by rw [hsp1]; exact hm) (by rw [hsp1]; decide),
      updateO_noDv o m _ (by rw [hsp1]; decide)]
    rw [show ('{' :: ("key:-".data ++ ['}'])).drop 7 = [] from by decide,
      explodeRunO_nil]
    by_cases hiu : o.ignoreUnsetVars = true
    · rw [hiu]
      simp
    · rw [Bool.not_eq_true] at hiu
      rw [hiu]
      simp
  have hB : (explodeRunO "${key:=}".data m o).1
      = (if o.ignoreUnsetVars then "${key:=}".data else []) := by
    rw [show "${key:=}".data
        = ([] : List Char) ++ '$' :: ('{' :: ("key:=".data ++ ['}'])) from rfl]
    rw [explodeRunO_valid [] _ m o (by simp) (by decide)]
    rw [show getTemplateKey ('{' :: ("key:=".data ++ ['}'])) = ("key:=".data, 7)
      from by decide]
    dsimp only
    rw [emitO_noKey_noDv o m _ _ (by rw [hsp2]; exact hm) (by rw [hsp2]; decide),
      updateO_noDv o m _ (by rw [hsp2]; decide)]
    rw [show ('{' :: ("key:=".data ++ ['}'])).drop 7 = [] from by decide,
      explodeRunO_nil]
    by_cases hiu : o.ignoreUnsetVars = true
    · rw [hiu]
      simp
    · rw [Bool.not_eq_true] at hiu
      rw [hiu]
      simp
  have hC : (explodeRunO "${key}".data m o).1
      = (if o.ignoreUnsetVars then "${key}".data else []) := by
    rw [show "${key}".data
        = ([] : List Char) ++ '$' :: ('{' :: ("key".data ++ ['}'])) from rfl]
    rw [explodeRunO_valid [] _ m o (by simp) (by decide)]
    rw [show getTemplateKey ('{' :: ("key".data ++ ['}'])) = ("key".data, 5)
      from by decide]
    dsimp only
    rw [emitO_noKey_noDv o m _ _ (by rw [hsp3]; exact hm) (by rw [hsp3]; decide),
      updateO_noDv o m _ (by rw [hsp3]; decide)]
    rw [show ('{' :: ("key".data ++ ['}'])).drop 5 = [] from by decide,
      explodeRunO_nil]
    by_cases hiu : o.ignoreUnsetVars = true
    · rw [hiu]
      simp
    · rw [Bool.not_eq_true] at hiu
      rw [hiu]
      simp
  have hD : (explodeRunO "${key:=}${key}".data m o).1
      = (if o.ignoreUnsetVars then "${key:=}".data else [])
        ++ (if o.ignoreUnsetVars then "${key}".data else []) := by
    rw [show "${key:=}${key}".data
        = ([] : List Char)
          ++ '$' :: ('{' :: ("key:=".data ++ '}' :: "${key}".data)) from rfl]
    rw [explodeRunO_valid [] _ m o (by simp) (by decide)]
    rw [show getTemplateKey ('{' :: ("key:=".data ++ '}' :: "${key}".data))
        = ("key:=".data, 7) from by decide]
    dsimp only
    rw [emitO_noKey_noDv o m _ _ (by rw [hsp2]; exact hm) (by rw [hsp2]; decide),
      updateO_noDv o m _ (by rw [hsp2]; decide)]
    rw [show ('{' :: ("key:=".data ++ '}' :: "${key}".data)).drop 7 = "${key}".data
      from by decide]
    rw [hC]
    by_cases hiu : o.ignoreUnsetVars = true
    · rw [hiu]
      simp
    · rw [Bool.not_eq_true] at hiu
      rw [hiu]
      simp
  refine ⟨?_, ?_⟩
  · intro hiu
    rw [hA, hB, hiu]
    simp
  · intro hiu
    rw [hA, hB, hD, hiu]
    refine ⟨by simp, by simp, ?_⟩
    simp only [if_true]
    decide

/-- C9 witness: at the empty mapping, `${key:-}` with default options emits
nothing, and with `ignoreUnsetVars` the double template is preserved whole —
so no `:=` insertion with an empty default took place. -/
theorem spec_C9_witness :
    (explodeRunO "${key:-}".data [] ⟨false, false⟩).1 = []
    ∧ (explodeRunO "${key:=}${key}".data [] ⟨true, false⟩).1
        = "${key:=}${key}".data := by
  have h1 := spec_C9 [] ⟨false, false⟩ (by decide)
  have h2 := spec_C9 [] ⟨true, false⟩ (by decide)
  exact ⟨(h1.1 rfl).1, (h2.2 rfl).2.2⟩

/-- C3 counterexample: for the key `a:-b:=c` the code's destructured
`defaultValue` is `"b"`, not the entire remainder `"b:=c"` after the first
operator, and the output of `explode "${a:-b:=c}" {}` is `"b"`. -/
theorem spec_C3_cex :
    splitKey "a:-b:=c".data ≠ ("a".data, some "b:=c".data)
    ∧ explode "${a:-b:=c}" [] DEFAULT_OPTIONS = "b" := by
  exact ⟨by decide, by decide⟩

/-- C3 (amended): the key is split on every occurrence of `:-`/`:=`
(JS `split` with a global regex), so `realKey` is the segment before the first
operator and `defaultValue` is only the segment between the first and second
operators — for every operator-free `a` and `b` and arbitrary `c`, the key
`a OP1 b OP2 c` destructures to `(a, some b)` for both operator orders. -/
theorem spec_C3 : ∀ (a b c : List Char),
    hasOp a = false → hasOp b = false →
    splitKey (a ++ ':' :: '-' :: (b ++ ':' :: '=' :: c)) = (a, some b)
    ∧ splitKey (a ++ ':' :: '=' :: (b ++ ':' :: '-' :: c)) = (a, some b) := by
  intro a b c ha hb
  constructor
  · rw [splitKey, jsSplitOps_op a '-' _ ha (Or.inr rfl),
      jsSplitOps_op b '=' c hb (Or.inl rfl)]
    rfl
  · rw [splitKey, jsSplitOps_op a '=' _ ha (Or.inl rfl),
      jsSplitOps_op b '-' c hb (Or.inr rfl)]
    rfl

/-- C3 witness: the amended split at the concrete key `a:-b:=c`. -/
theorem spec_C3_witness :
    hasOp "a".data = false ∧ hasOp "b".data = false
    ∧ splitKey ("a".data ++ ':' :: '-' :: ("b".data ++ ':' :: '=' :: "c".data))
        = ("a".data, some "b".data) := by
  refine ⟨by decide, by decide, ?_⟩
  exact (spec_C3 "a".data "b".data "c".data (by decide) (by decide)).1

/-- C4 counterexample: for `${a:-b:=c}` the first operator is `:-`, yet the
working copy is updated (`key.includes(":=")` looks anywhere in the key): the
final working mapping holds `a -> "b"` and the subsequent `$a` resolves to
`"b"`, so `explode "${a:-b:=c}$a" {}` is `"bb"`, where the claim predicts no
insertion and output `"b"`. -/
theorem spec_C4_cex :
    explode "${a:-b:=c}$a" [] DEFAULT_OPTIONS = "bb"
    ∧ (explodeRunO "${a:-b:=c}$a".data (copyMapping []) DEFAULT_OPTIONS).2
        = [("a".data, some "b".data)] := by
  exact ⟨by decide, by decide⟩

/-- C4 (amended): the working copy is updated with `realKey -> defaultValue`
exactly when `ignoreDefaultExpansion` is false, `realKey` is absent,
`defaultValue` is non-empty, and the key contains `:=` anywhere (not: as its
first operator); afterwards placeholders for the same key resolve to the
inserted value.  For every non-empty operator-free `b` (no `}`) and every `c`
(no `}`): `${a:-b:=c}$a` on the empty mapping outputs `b ++ b` and leaves the
working copy `{a: b}`, while `${a:-b}$a` (no `:=` anywhere) outputs `b` and
leaves the working copy empty. -/
theorem spec_C4 : ∀ (b c : List Char),
    b ≠ [] → hasOp b = false → '}' ∉ b → '}' ∉ c →
    ((explodeRunO ('$' :: '{' :: (('a' :: ':' :: '-' :: (b ++ ':' :: '=' :: c))
          ++ '}' :: '$' :: 'a' :: [])) [] DEFAULT_OPTIONS).1 = b ++ b
      ∧ (explodeRunO ('$' :: '{' :: (('a' :: ':' :: '-' :: (b ++ ':' :: '=' :: c))
          ++ '}' :: '$' :: 'a' :: [])) [] DEFAULT_OPTIONS).2
        = [((['a'] : List Char), some b)])
    ∧ ((explodeRunO ('$' :: '{' :: (('a' :: ':' :: '-' :: b)
          ++ '}' :: '$' :: 'a' :: [])) [] DEFAULT_OPTIONS).1 = b
      ∧ (explodeRunO ('$' :: '{' :: (('a' :: ':' :: '-' :: b)
          ++ '}' :: '$' :: 'a' :: [])) [] DEFAULT_OPTIONS).2 = []) := by
  intro b c hb hbop hbr hcr
  have hdvb : dvTruthy (some b) = true := by
    cases b with
    | nil => exact absurd rfl hb
    | cons x xs => rfl
  have hsk1 : splitKey ['a'] = (['a'], (none : Option (List Char))) := by decide
  have hlook : lookupEntry [((['a'] : List Char), some b)] ['a'] = some (some b) := by
    simp [lookupEntry]
  have hhk1 : hasKey [((['a'] : List Char), some b)] ['a'] = true :=
    hasKey_of_lookup _ _ _ hlook
  have hcont1 : explodeRunO ('$' :: 'a' :: []) [((['a'] : List Char), some b)]
      DEFAULT_OPTIONS = (b, [((['a'] : List Char), some b)]) := by
    rw [show ('$' :: 'a' :: ([] : List Char))
        = ([] : List Char) ++ '$' :: ('a' :: []) from rfl]
    rw [explodeRunO_valid [] ('a' :: []) _ DEFAULT_OPTIONS (by simp) (by decide)]
    rw [show getTemplateKey ('a' :: []) = (['a'], 1) from by decide]
    dsimp only
    rw [emitO_hasKey _ _ _ _ (by rw [hsk1]; exact hhk1),
      updateO_hasKey _ _ _ (by rw [hsk1]; exact hhk1)]
    rw [hsk1]
    dsimp only
    rw [jsIndex_of_lookup _ _ _ hlook]
    rw [show ('a' :: ([] : List Char)).drop 1 = [] from rfl, explodeRunO_nil]
    simp [jsConcatVal]
  have hcont2 : explodeRunO ('$' :: 'a' :: []) [] DEFAULT_OPTIONS = ([], []) := by
    decide
  -- the `${a:-b:=c}` part
  have hkbr1 : '}' ∉ ('a' :: ':' :: '-' :: (b ++ ':' :: '=' :: c)) := by
    simp [hbr, hcr]
  have hgt1 := getTemplateKey_braced ('a' :: ':' :: '-' :: (b ++ ':' :: '=' :: c))
    ('$' :: 'a' :: []) hkbr1
  have hsk : splitKey ('a' :: ':' :: '-' :: (b ++ ':' :: '=' :: c))
      = (['a'], some b) := by
    rw [splitKey, show ('a' :: ':' :: '-' :: (b ++ ':' :: '=' :: c))
        = ['a'] ++ ':' :: '-' :: (b ++ ':' :: '=' :: c) from rfl,
      jsSplitOps_op ['a'] '-' _ (by decide) (Or.inr rfl),
      jsSplitOps_op b '=' c hbop (Or.inl rfl)]
    rfl
  have hce1 : hasColonEq ('a' :: ':' :: '-' :: (b ++ ':' :: '=' :: c)) = true := by
    rw [show ('a' :: ':' :: '-' :: (b ++ ':' :: '=' :: c))
        = ('a' :: ':' :: '-' :: b) ++ ':' :: '=' :: c from by simp]
    exact hasColonEq_append _ _
  have hdrop1 : ('{' :: (('a' :: ':' :: '-' :: (b ++ ':' :: '=' :: c))
      ++ '}' :: '$' :: 'a' :: [])).drop
      (('a' :: ':' :: '-' :: (b ++ ':' :: '=' :: c)).length + 2)
      = '$' :: 'a' :: [] := by
    rw [show (('a' :: ':' :: '-' :: (b ++ ':' :: '=' :: c)).length + 2)
        = (('a' :: ':' :: '-' :: (b ++ ':' :: '=' :: c)).length + 1) + 1 from rfl,
      List.drop_succ_cons]
    have := drop_append_add ('a' :: ':' :: '-' :: (b ++ ':' :: '=' :: c))
      ('}' :: '$' :: 'a' :: []) 1
    simpa using this
  have hrunPos : explodeRunO ('$' :: '{' :: (('a' :: ':' :: '-' :: (b ++ ':' :: '=' :: c))
      ++ '}' :: '$' :: 'a' :: [])) [] DEFAULT_OPTIONS
      = (b ++ b, [((['a'] : List Char), some b)]) := by
    rw [show ('$' :: '{' :: (('a' :: ':' :: '-' :: (b ++ ':' :: '=' :: c))
        ++ '}' :: '$' :: 'a' :: []))
        = ([] : List Char) ++ '$' :: ('{' :: (('a' :: ':' :: '-' :: (b ++ ':' :: '=' :: c))
          ++ '}' :: '$' :: 'a' :: [])) from rfl]
    rw [explodeRunO_valid [] _ [] DEFAULT_OPTIONS (by simp) (by rw [hgt1]; simp)]
    rw [hgt1]
    dsimp only
    rw [emitO_noKey_dv _ _ _ _ (by rw [hsk]; rfl) (by rw [hsk]; exact hdvb) rfl,
      updateO_insert _ _ _ rfl (by rw [hsk]; rfl) (by rw [hsk]; exact hdvb) hce1]
    rw [hsk]
    dsimp only
    rw [hdrop1]
    rw [show setKey [] ['a'] ((some b).getD [])
        = [((['a'] : List Char), some b)] from by simp [setKey]]
    rw [hcont1]
    simp
  -- the `${a:-b}` part (no `:=` anywhere in the key)
  have hkbr2 : '}' ∉ ('a' :: ':' :: '-' :: b) := by
    simp [hbr]
  have hgt2 := getTemplateKey_braced ('a' :: ':' :: '-' :: b) ('$' :: 'a' :: []) hkbr2
  have hsk2 : splitKey ('a' :: ':' :: '-' :: b) = (['a'], some b) := by
    rw [splitKey, show ('a' :: ':' :: '-' :: b) = ['a'] ++ ':' :: '-' :: b from rfl,
      jsSplitOps_op ['a'] '-' b (by decide) (Or.inr rfl),
      jsSplitOps_noOp b hbop]
    rfl
  have hceb : hasColonEq b = false := by
    cases hcb : hasColonEq b
    · rfl
    · exact absurd (hasColonEq_imp_hasOp b hcb) (by rw [hbop]; simp)
  have hce2 : hasColonEq ('a' :: ':' :: '-' :: b) = false := by
    show (if ('a' = ':' ∧ ':' = '=') then true
      else hasColonEq (':' :: '-' :: b)) = false
    rw [if_neg (by rintro ⟨h, -⟩; exact absurd h (by decide))]
    show (if (':' = ':' ∧ '-' = '=') then true else hasColonEq ('-' :: b)) = false
    rw [if_neg (by rintro ⟨-, h⟩; exact absurd h (by decide))]
    cases b with
    | nil => rfl
    | cons x xs =>
      show (if ('-' = ':' ∧ x = '=') then true else hasColonEq (x :: xs)) = false
      rw [if_neg (by rintro ⟨h, -⟩; exact absurd h (by decide))]
      exact hceb
  have hdrop2 : ('{' :: (('a' :: ':' :: '-' :: b) ++ '}' :: '$' :: 'a' :: [])).drop
      (('a' :: ':' :: '-' :: b).length + 2) = '$' :: 'a' :: [] := by
    rw [show (('a' :: ':' :: '-' :: b).length + 2)
        = (('a' :: ':' :: '-' :: b).length + 1) + 1 from rfl, List.drop_succ_cons]
    have := drop_append_add ('a' :: ':' :: '-' :: b) ('}' :: '$' :: 'a' :: []) 1
    simpa using this
  have hrunNeg : explodeRunO ('$' :: '{' :: (('a' :: ':' :: '-' :: b)
      ++ '}' :: '$' :: 'a' :: [])) [] DEFAULT_OPTIONS = (b, []) := by
    rw [show ('$' :: '{' :: (('a' :: ':' :: '-' :: b) ++ '}' :: '$' :: 'a' :: []))
        = ([] : List Char) ++ '$' :: ('{' :: (('a' :: ':' :: '-' :: b)
          ++ '}' :: '$' :: 'a' :: [])) from rfl]
    rw [explodeRunO_valid [] _ [] DEFAULT_OPTIONS (by simp) (by rw [hgt2]; simp)]
    rw [hgt2]
    dsimp only
    rw [emitO_noKey_dv _ _ _ _ (by rw [hsk2]; rfl) (by rw [hsk2]; exact hdvb) rfl,
      updateO_noColonEq _ _ _ hce2]
    rw [hsk2]
    dsimp only
    rw [hdrop2, hcont2]
    simp
  exact ⟨⟨by rw [hrunPos], by rw [hrunPos]⟩, ⟨by rw [hrunNeg], by rw [hrunNeg]⟩⟩

/-- C4 witness: the amended behavior at `b = "b"`, `c = "c"`. -/
theorem spec_C4_witness :
    (explodeRunO ('$' :: '{' :: (('a' :: ':' :: '-' :: ("b".data ++ ':' :: '=' :: "c".data))
        ++ '}' :: '$' :: 'a' :: [])) [] DEFAULT_OPTIONS).1 = "b".data ++ "b".data
    ∧ (explodeRunO ('$' :: '{' :: (('a' :: ':' :: '-' :: "b".data)
        ++ '}' :: '$' :: 'a' :: [])) [] DEFAULT_OPTIONS).2 = [] := by
  have h := spec_C4 "b".data "c".data (by decide) (by decide) (by decide) (by decide)
  exact ⟨h.1.1, h.2.2⟩

end ExplodeEnv
